import Mathlib

/-!
Shallow embedding of the mosaic-generation engine of
`src/src-tauri/src/lib.rs` (together with `src/src-tauri/src/errors.rs`).

Modelling conventions:
* `f64` values are modelled over a `LinearOrderedField α` (instantiated at `ℝ`
  when the code computes with `exp`, at `ℚ` for concrete evaluations); machine
  `u32` arithmetic is `ℕ` with explicit `% 2^32` where overflow matters.
* External effects (filesystem walk, image codec, the `kiddo` KD-tree query,
  base64) are parameters collected in an `Env` record; the repository's own
  code is translated directly.
* A Rust panic (slice index out of bounds, `step_by(0)`, division by zero) is
  modelled as `Option.none` at the outermost level of the function that would
  panic.
-/

namespace MosaicGen

/-- `errors.rs`: the application error type `AppError`. -/
inductive AppError where
  | Io : String → AppError
  | Image : String → AppError
  | Config : String → AppError
deriving DecidableEq, Repr

/-- The `Display` rendering of `AppError` produced by the `thiserror` derive
(`"IO Error: {0}"`, `"Image Processing Error: {0}"`, `"Configuration Error: {0}"`). -/
def errMsg : AppError → String
  | .Io s => "IO Error: " ++ s
  | .Image s => "Image Processing Error: " ++ s
  | .Config s => "Configuration Error: " ++ s

/-- One RGBA pixel, restricted to the three channels the engine reads
(`pixel.0[0..2]`), each a `u8` value. -/
abbrev Pixel := ℕ × ℕ × ℕ

/-- An in-memory bitmap (`DynamicImage` / `ImageBuffer`): dimensions plus the
row-major pixel sequence (`y` outer, `x` inner, as `img.pixels()` yields). -/
structure Image where
  width : ℕ
  height : ℕ
  pixels : List Pixel
deriving DecidableEq, Repr

/-- `2^32`, the modulus of Rust `u32` arithmetic (release-mode wrapping). -/
def u32Mod : ℕ := 4294967296

/-- `lib.rs` line 44: `const PENALTY_MULTIPLIER: f64 = 50.0`. -/
def PENALTY_MULTIPLIER (α : Type) [LinearOrderedField α] : α := 50

/-- `lib.rs` line 45: `const KD_TREE_K_MIN: usize = 10`. -/
def KD_TREE_K_MIN : ℕ := 10

/-- `lib.rs` line 46: `const KD_TREE_K_MAX: usize = 100`. -/
def KD_TREE_K_MAX : ℕ := 100

/-- `lib.rs` line 47: `const KD_TREE_K_DIVISOR: usize = 10`. -/
def KD_TREE_K_DIVISOR : ℕ := 10

/-- `lib.rs` line 48: `const SUPPORTED_EXTENSIONS: &[&str] = &["jpg", "jpeg", "png"]`. -/
def SUPPORTED_EXTENSIONS : List String := ["jpg", "jpeg", "png"]

/-- `GaussianMask`: precalculated weights plus their running total. -/
structure GaussianMask (α : Type) where
  weights : List α
  total_weight : α

/-- The weight pushed for grid position `(x, y)` in `GaussianMask::new`:
`exp(-((x-c)² + (y-c)²) / (2σ²))` with `c = size/2.0`, `σ = size/sigma_divisor`
when `sigma_divisor > 0.0`, and `1.0` otherwise. -/
noncomputable def gaussWeight (size : ℕ) (sigma_divisor : ℝ) (x y : ℕ) : ℝ :=
  if 0 < sigma_divisor then
    let center : ℝ := (size : ℝ) / 2
    let sigma : ℝ := (size : ℝ) / sigma_divisor
    let dx : ℝ := (x : ℝ) - center
    let dy : ℝ := (y : ℝ) - center
    Real.exp (-(dx * dx + dy * dy) / (2 * sigma * sigma))
  else 1

/-- `GaussianMask::new(size, sigma_divisor)`: the double loop pushes weights in
row-major order (`y` outer, `x` inner) and accumulates `total_weight`, which
therefore equals the sum of the pushed weights. -/
noncomputable def GaussianMask.new (size : ℕ) (sigma_divisor : ℝ) : GaussianMask ℝ :=
  let ws := (List.range size).flatMap
    (fun y => (List.range size).map (fun x => gaussWeight size sigma_divisor x y))
  { weights := ws, total_weight := ws.sum }

/-- `avg_rgb_with_mask(img, mask)`: enumerate the pixels, look up `weights[i]`,
accumulate each channel times the weight, divide by `total_weight`.
The lookup `weights[i]` panics (modelled as `none`) exactly when the pixel
count exceeds the weight count; otherwise the enumeration zips pixel `i`
with weight `i`. -/
def avg_rgb_with_mask {α : Type} [LinearOrderedField α]
    (img : Image) (mask : GaussianMask α) : Option (α × α × α) :=
  if img.pixels.length ≤ mask.weights.length then
    let r := (List.zipWith (fun (p : Pixel) w => (p.1 : α) * w) img.pixels mask.weights).sum
    let g := (List.zipWith (fun (p : Pixel) w => (p.2.1 : α) * w) img.pixels mask.weights).sum
    let b := (List.zipWith (fun (p : Pixel) w => (p.2.2 : α) * w) img.pixels mask.weights).sum
    some (r / mask.total_weight, g / mask.total_weight, b / mask.total_weight)
  else none

/-- Squared Euclidean distance on 3-dimensional color points, the metric of the
`kiddo::SquaredEuclidean` KD-tree query. -/
def sqDist {α : Type} [LinearOrderedField α] (a b : α × α × α) : α :=
  (a.1 - b.1) * (a.1 - b.1) + (a.2.1 - b.2.1) * (a.2.1 - b.2.1)
    + (a.2.2 - b.2.2) * (a.2.2 - b.2.2)

/-- `Tile`: path, precomputed average color, lazily populated image cache,
and the tile size fixed at construction. -/
structure Tile (α : Type) where
  path : String
  color : α × α × α
  image_cache : Option Image
  tile_size : ℕ

/-- `Tile::new(path, color, tile_size)`: cache starts empty. -/
def Tile.new {α : Type} (path : String) (color : α × α × α) (tile_size : ℕ) : Tile α :=
  { path := path, color := color, image_cache := none, tile_size := tile_size }

/-- The external collaborators of the engine, as oracles: the image codec
(`ImageReader` decode + EXIF orientation + `resize_to_fill`/`resize_exact`),
`image::imageops::overlay`, the `kiddo` KD-tree `nearest_n` query, the PNG
encoder and the base64 encoder. -/
structure Env (α : Type) where
  loadImage : String → Except AppError Image
  loadResized : String → ℕ → Except AppError Image
  resizeExact : Image → ℕ → ℕ → Image
  overlay : Image → Image → ℕ → ℕ → Image
  nearestN : List (α × α × α) → (α × α × α) → ℕ → List (ℕ × α)
  encodePng : Image → Except String (List ℕ)
  base64Encode : List ℕ → String

/-- `Tile::get_image`: return the cached image if present; otherwise load and
resize the source file, cache the result, and return it; a load failure is
wrapped in an `Image` error carrying the tile path and leaves the tile
unchanged. -/
def Tile.get_image {α : Type} (env : Env α) (t : Tile α) :
    Except AppError (Image × Tile α) :=
  match t.image_cache with
  | some cached => .ok (cached, t)
  | none =>
    match env.loadResized t.path t.tile_size with
    | .error e => .error (.Image ("Failed to load tile " ++ t.path ++ ": " ++ errMsg e))
    | .ok resized => .ok (resized, { t with image_cache := some resized })

/-- `TileLibrary`: the tiles, the KD-tree build input (`color_points`, with
index `i` corresponding to `tiles[i]`), the configuration fingerprint
`(src_dir, tile_size, sigma_divisor)`, and the shared mask. -/
structure TileLibrary (α : Type) where
  tiles : List (Tile α)
  color_points : List (α × α × α)
  src_dir : String
  tile_size : ℕ
  sigma_divisor : α
  mask : GaussianMask α

/-- One filesystem entry as seen by `load_library` after the `WalkDir`
walk and the `is_file` filter: its path, its `path.extension()`, and the
outcome of `load_resized_image_with_orientation` on it (`none` = the decode
failed and the `.ok()?` dropped it). -/
structure FileEntry where
  path : String
  ext : Option String
  decoded : Option Image

/-- A file survives `load_library` when its lowercased extension is supported
and it decodes successfully. -/
def survives (e : FileEntry) : Bool :=
  match e.ext with
  | none => false
  | some x => SUPPORTED_EXTENSIONS.contains x.toLower && e.decoded.isSome

/-- The `filter_map` closure of `TileLibrary::load_library` on one entry:
extension present, lowercased, checked against `SUPPORTED_EXTENSIONS`;
decode (failures dropped by `.ok()?`); compute the weighted average color;
emit a `Tile`. (`avg_rgb_with_mask` is `Option`-valued only to model its
slice-index panic; `resize_to_fill` guarantees a `size × size` image here,
so it never fires.) -/
def loadEntry {α : Type} [LinearOrderedField α]
    (size : ℕ) (mask : GaussianMask α) (e : FileEntry) : Option (Tile α) :=
  match e.ext with
  | none => none
  | some x =>
    if SUPPORTED_EXTENSIONS.contains x.toLower then
      e.decoded.bind (fun tile_img =>
        (avg_rgb_with_mask tile_img mask).map (fun color => Tile.new e.path color size))
    else none

/-- `TileLibrary::load_library`: `filter_map` the entries. -/
def load_library {α : Type} [LinearOrderedField α]
    (entries : List FileEntry) (size : ℕ) (mask : GaussianMask α) : List (Tile α) :=
  entries.filterMap (loadEntry size mask)

/-- `TileLibrary::new(dir, size, sigma_divisor)`: build the mask, load the
tiles, fail with a `Config` error when none survive, otherwise build the
KD-tree input from the tile colors (index position = tile position). -/
noncomputable def TileLibrary.new (entries : List FileEntry) (dir : String)
    (size : ℕ) (sigma_divisor : ℝ) : Except AppError (TileLibrary ℝ) :=
  let mask := GaussianMask.new size sigma_divisor
  let tiles := load_library entries size mask
  if tiles.isEmpty then
    .error (.Config "No valid images found in directory")
  else
    .ok { tiles := tiles, color_points := tiles.map (fun t => t.color),
          src_dir := dir, tile_size := size, sigma_divisor := sigma_divisor,
          mask := mask }

/-- `TileLibrary::matches_config`: equality of all three fingerprint fields
(`sigma_divisor` by `f64` value equality). -/
def TileLibrary.matches_config {α : Type} [LinearOrderedField α]
    (lib : TileLibrary α) (dir : String) (size : ℕ) (sigma_divisor : α) : Bool :=
  lib.src_dir == dir && lib.tile_size == size && decide (lib.sigma_divisor = sigma_divisor)

/-- The adaptive candidate count of `find_best_tile` (lines 340--344):
`(len / KD_TREE_K_DIVISOR).max(KD_TREE_K_MIN).min(KD_TREE_K_MAX).min(len).max(1)`. -/
def kOf (tile_count : ℕ) : ℕ :=
  ((((tile_count / KD_TREE_K_DIVISOR).max KD_TREE_K_MIN).min KD_TREE_K_MAX).min
    tile_count).max 1

/-- The per-neighbor score of `find_best_tile` (lines 358--360):
`color_dist + usage_counts[idx] as f64 * penalty * PENALTY_MULTIPLIER`. -/
def scoreOf {α : Type} [LinearOrderedField α] (usage : ℕ → ℕ) (penalty : α)
    (p : ℕ × α) : α :=
  p.2 + (usage p.1 : α) * penalty * PENALTY_MULTIPLIER α

/-- The scoring loop of `find_best_tile` (lines 353--366): start with
`best_idx = 0` and `min_score = f64::MAX`, score each neighbor with
`scoreOf`, update on a strictly smaller score. `min_score : Option α` models
the `f64::MAX` sentinel: in exact arithmetic every score is below
`f64::MAX`, so the first candidate always replaces the `none` state. -/
def bestGo {α : Type} [LinearOrderedField α] (usage : ℕ → ℕ) (penalty : α) :
    List (ℕ × α) → ℕ × Option α → ℕ × Option α
  | [], acc => acc
  | p :: rest, (best_idx, min_score) =>
    let total_score := scoreOf usage penalty p
    match min_score with
    | none => bestGo usage penalty rest (p.1, some total_score)
    | some m =>
      if total_score < m then bestGo usage penalty rest (p.1, some total_score)
      else bestGo usage penalty rest (best_idx, some m)

/-- The candidate minimizing the penalized score, ties to the first yielded. -/
def findBestAmong {α : Type} [LinearOrderedField α]
    (usage : ℕ → ℕ) (penalty : α) (nearest : List (ℕ × α)) : ℕ :=
  (bestGo usage penalty nearest (0, none)).1

/-- `TileLibrary::find_best_tile`: query the KD-tree for the `kOf` nearest
neighbors of the target color, then run the scoring loop over them.
`usage` is the usage-count table read by the loop (`usage_counts[idx]`). -/
def TileLibrary.find_best_tile {α : Type} [LinearOrderedField α] (env : Env α)
    (lib : TileLibrary α) (target_color : α × α × α) (usage : ℕ → ℕ)
    (penalty : α) : ℕ :=
  findBestAmong usage penalty
    (env.nearestN lib.color_points target_color (kOf lib.tiles.length))

/-- The padded dimension of `generate_mosaic` (lines 258--259):
`((dim + tile_size - 1) / tile_size) * tile_size` in wrapping `u32`
arithmetic (`dim + tile_size` may wrap; the subtraction of 1 then wraps at 0;
the final product never exceeds the dividend, the trailing reduction is kept
for faithfulness). -/
def padDim (dim tile_size : ℕ) : ℕ :=
  ((dim + tile_size + (u32Mod - 1)) % u32Mod) / tile_size * tile_size % u32Mod

/-- The padded target buffer of `generate_mosaic` (lines 262--270): when both
padded dimensions equal the originals the original buffer is used, otherwise
the target is stretched with `resize_exact` (`to_rgba8` preserves pixels and
is the identity in this model). -/
def paddedTarget {α : Type} (env : Env α) (img : Image) (tile_size : ℕ) : Image :=
  let pad_w := padDim img.width tile_size
  let pad_h := padDim img.height tile_size
  if pad_w = img.width ∧ pad_h = img.height then img
  else env.resizeExact img pad_w pad_h

/-- `(0..bound).step_by(step)` for `step > 0`: the multiples of `step`
below `bound`. -/
def stepRange (bound step : ℕ) : List ℕ :=
  (List.range ((bound + step - 1) / step)).map (fun i => i * step)

/-- The cell coordinates of `generate_mosaic` (lines 273--280): row-major,
`y` outer, `x` inner. -/
def coordsList (pad_w pad_h tile_size : ℕ) : List (ℕ × ℕ) :=
  (stepRange pad_h tile_size).flatMap
    (fun y => (stepRange pad_w tile_size).map (fun x => (x, y)))

/-- `target.view(x, y, w, h).to_image()`: copy the rectangle out of the
row-major buffer (pixel `(x+dx, y+dy)` sits at index `(y+dy)*width + (x+dx)`). -/
def subImage (img : Image) (x y w h : ℕ) : Image :=
  { width := w, height := h,
    pixels := (List.range h).flatMap (fun dy =>
      (List.range w).map (fun dx =>
        img.pixels.getD ((y + dy) * img.width + (x + dx)) (0, 0, 0))) }

/-- `image::imageops::crop_imm(img, x, y, w, h).to_image()`: the rectangle
clamped to the image bounds. -/
def cropImage (img : Image) (x y w h : ℕ) : Image :=
  subImage img x y (min w (img.width - x)) (min h (img.height - y))

/-- `MosaicConfig`: the per-generation penalty factor. -/
structure MosaicConfig (α : Type) where
  penalty_factor : α

/-- The sequential selection pass of `generate_mosaic` (lines 284--295): for
each cell extract the region (the `view` call panics when the rectangle
leaves the buffer — modelled by the bounds guard), average it with the shared
mask, pick the best tile, and increment its usage count. The two index
guards model the panics of the `usage_counts[idx]` reads in the scoring loop
and of `usage_counts[best_idx] += 1`; under them `usage.getD i 0` is exactly
`usage_counts[i]`. -/
def selectLoop {α : Type} [LinearOrderedField α] (env : Env α)
    (lib : TileLibrary α) (penalty : α) (target : Image) :
    List (ℕ × ℕ) → List ℕ → Option (List ℕ)
  | [], _ => some []
  | (x, y) :: rest, usage =>
    if x + lib.tile_size ≤ target.width ∧ y + lib.tile_size ≤ target.height then
      match avg_rgb_with_mask (subImage target x y lib.tile_size lib.tile_size) lib.mask with
      | none => none
      | some target_color =>
        let cand := env.nearestN lib.color_points target_color (kOf lib.tiles.length)
        if ∀ p ∈ cand, p.1 < usage.length then
          let best_idx := lib.find_best_tile env target_color (fun i => usage.getD i 0) penalty
          if best_idx < usage.length then
            (selectLoop env lib penalty target rest
              (usage.set best_idx (usage.getD best_idx 0 + 1))).map
              (fun ms => best_idx :: ms)
          else none
        else none
    else none

/-- The sequential compositing pass of `generate_mosaic` (lines 299--306):
for each cell index `self.tiles[best_idx]` (panic when out of bounds),
lazily load its image (an error is returned, keeping the tiles mutated so
far), and overlay it onto the canvas at the cell offset. -/
def compositeLoop {α : Type} (env : Env α) :
    List ((ℕ × ℕ) × ℕ) → Image → List (Tile α) →
    Option (Except AppError Image × List (Tile α))
  | [], canvas, tiles => some (.ok canvas, tiles)
  | ((x, y), best_idx) :: rest, canvas, tiles =>
    match tiles[best_idx]? with
    | none => none
    | some t =>
      match t.get_image env with
      | .error e => some (.error e, tiles)
      | .ok (tile_img, t2) =>
        compositeLoop env rest (env.overlay canvas tile_img x y) (tiles.set best_idx t2)

/-- `TileLibrary::generate_mosaic(target_path, config)`: load the target,
pad (the divisions by `tile_size` panic when it is zero, as does
`step_by(0)`), run the selection pass, composite onto a fresh canvas, crop
back to the original dimensions, PNG-encode, and return the base64 data URI.
The returned library carries the tile list as mutated by the compositing
pass, also on an error produced after mutations began. -/
def TileLibrary.generate_mosaic {α : Type} [LinearOrderedField α] (env : Env α)
    (lib : TileLibrary α) (target_path : String) (config : MosaicConfig α) :
    Option (Except AppError String × TileLibrary α) :=
  match env.loadImage target_path with
  | .error e => some (.error e, lib)
  | .ok target_img =>
    if lib.tile_size = 0 then none
    else
      match selectLoop env lib config.penalty_factor
          (paddedTarget env target_img lib.tile_size)
          (coordsList (padDim target_img.width lib.tile_size)
            (padDim target_img.height lib.tile_size) lib.tile_size)
          (List.replicate lib.tiles.length 0) with
      | none => none
      | some matchList =>
        match compositeLoop env
            ((coordsList (padDim target_img.width lib.tile_size)
              (padDim target_img.height lib.tile_size) lib.tile_size).zip matchList)
            (Image.mk (padDim target_img.width lib.tile_size)
              (padDim target_img.height lib.tile_size)
              (List.replicate (padDim target_img.width lib.tile_size *
                padDim target_img.height lib.tile_size) (0, 0, 0)))
            lib.tiles with
        | none => none
        | some (.error e, tiles2) => some (.error e, { lib with tiles := tiles2 })
        | some (.ok canvas, tiles2) =>
          match env.encodePng (cropImage canvas 0 0 target_img.width
              target_img.height) with
          | .error e =>
            some (.error (.Image ("Failed to encode image: " ++ e)),
              { lib with tiles := tiles2 })
          | .ok buffer =>
            some (.ok ("data:image/png;base64," ++ env.base64Encode buffer),
              { lib with tiles := tiles2 })

/-! ### Helper lemmas about the Gaussian mask -/

lemma mask_weights_length (size : ℕ) (sigma_divisor : ℝ) :
    (GaussianMask.new size sigma_divisor).weights.length = size * size := by
  simp [GaussianMask.new, List.length_flatMap, Function.comp_def, List.map_const']

lemma mask_weights_mem (size : ℕ) (sigma_divisor : ℝ) (w : ℝ)
    (hw : w ∈ (GaussianMask.new size sigma_divisor).weights) :
    ∃ x y, w = gaussWeight size sigma_divisor x y := by
  simp only [GaussianMask.new, List.mem_flatMap, List.mem_map, List.mem_range] at hw
  obtain ⟨y, -, x, -, rfl⟩ := hw
  exact ⟨x, y, rfl⟩

lemma gaussWeight_pos (size : ℕ) (sigma_divisor : ℝ) (x y : ℕ) :
    0 < gaussWeight size sigma_divisor x y := by
  unfold gaussWeight
  split
  · exact Real.exp_pos _
  · exact one_pos

lemma gaussWeight_le_one (size : ℕ) (sigma_divisor : ℝ) (x y : ℕ)
    (hsize : 0 < size) (hsig : 0 < sigma_divisor) :
    gaussWeight size sigma_divisor x y ≤ 1 := by
  unfold gaussWeight
  rw [if_pos hsig]
  apply Real.exp_le_one_iff.mpr
  have hs : (0 : ℝ) < (size : ℝ) / sigma_divisor :=
    div_pos (by exact_mod_cast hsize) hsig
  have hd : (0 : ℝ) ≤ ((x : ℝ) - (size : ℝ) / 2) * ((x : ℝ) - (size : ℝ) / 2)
      + ((y : ℝ) - (size : ℝ) / 2) * ((y : ℝ) - (size : ℝ) / 2) :=
    add_nonneg (mul_self_nonneg _) (mul_self_nonneg _)
  have h2 : (0 : ℝ) ≤ 2 * ((size : ℝ) / sigma_divisor) * ((size : ℝ) / sigma_divisor) := by
    positivity
  exact div_nonpos_of_nonpos_of_nonneg (neg_nonpos.mpr hd) h2

lemma mask_weights_pos (size : ℕ) (sigma_divisor : ℝ) (w : ℝ)
    (hw : w ∈ (GaussianMask.new size sigma_divisor).weights) : 0 < w := by
  obtain ⟨x, y, rfl⟩ := mask_weights_mem size sigma_divisor w hw
  exact gaussWeight_pos size sigma_divisor x y

lemma mask_sum_pos (size : ℕ) (sigma_divisor : ℝ) (hsize : 0 < size) :
    0 < (GaussianMask.new size sigma_divisor).weights.sum := by
  apply List.sum_pos _ (fun w hw => mask_weights_pos size sigma_divisor w hw)
  intro hnil
  have := mask_weights_length size sigma_divisor
  rw [hnil] at this
  simp at this
  omega

lemma mask_total_eq_sum (size : ℕ) (sigma_divisor : ℝ) :
    (GaussianMask.new size sigma_divisor).total_weight =
      (GaussianMask.new size sigma_divisor).weights.sum := rfl

/-- Summing `f p * w` over a zip where every pixel evaluates to the same
channel value pulls the constant out of the weight sum. -/
lemma zipWith_const_mul_sum {α : Type} [LinearOrderedField α] (v : α) (f : Pixel → α) :
    ∀ (ps : List Pixel) (ws : List α), ps.length = ws.length →
      (∀ p ∈ ps, f p = v) →
      (List.zipWith (fun p w => f p * w) ps ws).sum = v * ws.sum
  | [], [], _, _ => by simp
  | [], w :: ws, hlen, _ => by simp at hlen
  | p :: ps, [], hlen, _ => by simp at hlen
  | p :: ps, w :: ws, hlen, hconst => by
    have hv : f p = v := hconst p (by simp)
    have ih := zipWith_const_mul_sum v f ps ws (by simpa using hlen)
      (fun q hq => hconst q (by simp [hq]))
    simp only [List.zipWith_cons_cons, List.sum_cons, ih, hv]
    ring

/-- C5: for `size > 0` and `sigma_divisor > 0`, `GaussianMask::new` produces
exactly `size²` weights (row-major), each in the half-open interval `(0, 1]`,
and the stored `total_weight` equals the sum of all weights. -/
theorem C5_mask_new_weights (size : ℕ) (sigma_divisor : ℝ)
    (hsize : 0 < size) (hsig : 0 < sigma_divisor) :
    (GaussianMask.new size sigma_divisor).weights.length = size * size ∧
    (∀ w ∈ (GaussianMask.new size sigma_divisor).weights, 0 < w ∧ w ≤ 1) ∧
    (GaussianMask.new size sigma_divisor).total_weight =
      (GaussianMask.new size sigma_divisor).weights.sum := by
  refine ⟨mask_weights_length size sigma_divisor, ?_, rfl⟩
  intro w hw
  obtain ⟨x, y, rfl⟩ := mask_weights_mem size sigma_divisor w hw
  exact ⟨gaussWeight_pos size sigma_divisor x y,
    gaussWeight_le_one size sigma_divisor x y hsize hsig⟩

/-- Witness for C5 at `size = 2`, `sigma_divisor = 4`. -/
theorem C5_mask_new_weights_witness :
    (GaussianMask.new 2 4).weights.length = 2 * 2 ∧
    (∀ w ∈ (GaussianMask.new 2 4).weights, 0 < w ∧ w ≤ 1) ∧
    (GaussianMask.new 2 4).total_weight = (GaussianMask.new 2 4).weights.sum :=
  C5_mask_new_weights 2 4 (by norm_num) (by norm_num)

/-- C6: for every mask (any `sigma_divisor`) and every image of the mask's
dimensions whose pixels all share one RGB color, the weighted average
returns exactly that color in each channel. -/
theorem C6_uniform_color_avg (size : ℕ) (sigma_divisor : ℝ) (img : Image) (c : Pixel)
    (hsize : 0 < size) (hw : img.width = size) (hh : img.height = size)
    (hlen : img.pixels.length = img.width * img.height)
    (hc : ∀ p ∈ img.pixels, p = c) :
    avg_rgb_with_mask img (GaussianMask.new size sigma_divisor) =
      some ((c.1 : ℝ), (c.2.1 : ℝ), (c.2.2 : ℝ)) := by
  have hlen' : img.pixels.length = (GaussianMask.new size sigma_divisor).weights.length := by
    rw [mask_weights_length, hlen, hw, hh]
  have hS : (GaussianMask.new size sigma_divisor).weights.sum ≠ 0 :=
    ne_of_gt (mask_sum_pos size sigma_divisor hsize)
  unfold avg_rgb_with_mask
  rw [if_pos (le_of_eq hlen')]
  have hr := zipWith_const_mul_sum (α := ℝ) (c.1 : ℝ) (fun p => (p.1 : ℝ))
    img.pixels (GaussianMask.new size sigma_divisor).weights hlen'
    (fun p hp => by rw [hc p hp])
  have hg := zipWith_const_mul_sum (α := ℝ) (c.2.1 : ℝ) (fun p => (p.2.1 : ℝ))
    img.pixels (GaussianMask.new size sigma_divisor).weights hlen'
    (fun p hp => by rw [hc p hp])
  have hb := zipWith_const_mul_sum (α := ℝ) (c.2.2 : ℝ) (fun p => (p.2.2 : ℝ))
    img.pixels (GaussianMask.new size sigma_divisor).weights hlen'
    (fun p hp => by rw [hc p hp])
  simp only [mask_total_eq_sum, hr, hg, hb, mul_div_cancel_right₀ _ hS]

/-- Witness for C6: a uniform `2 × 2` image of color `(7, 3, 5)` averaged with
a `sigma_divisor = 4` Gaussian mask. -/
theorem C6_uniform_color_avg_witness :
    avg_rgb_with_mask (Image.mk 2 2 [(7, 3, 5), (7, 3, 5), (7, 3, 5), (7, 3, 5)])
      (GaussianMask.new 2 4) = some ((7 : ℝ), (3 : ℝ), (5 : ℝ)) := by
  have h := C6_uniform_color_avg 2 4
    (Image.mk 2 2 [(7, 3, 5), (7, 3, 5), (7, 3, 5), (7, 3, 5)]) (7, 3, 5)
    (by norm_num) rfl rfl (by norm_num) (by intro p hp; simpa using hp)
  simpa using h

/-- C9: when the image's width and height both equal the mask's size, every
enumeration index used by `avg_rgb_with_mask` is below `size²` (the pixel
count equals the weight count), so every weight lookup is in bounds and the
panic branch is unreachable; the function returns the per-channel
`Σ(channel·weight) / total_weight` sums taken in the shared row-major order. -/
theorem C9_avg_weight_lookups_in_bounds (size : ℕ) (sigma_divisor : ℝ) (img : Image)
    (hw : img.width = size) (hh : img.height = size)
    (hlen : img.pixels.length = img.width * img.height) :
    (∀ i, i < img.pixels.length →
      i < (GaussianMask.new size sigma_divisor).weights.length) ∧
    avg_rgb_with_mask img (GaussianMask.new size sigma_divisor) =
      some (((List.zipWith (fun (p : Pixel) w => (p.1 : ℝ) * w) img.pixels
                (GaussianMask.new size sigma_divisor).weights).sum /
              (GaussianMask.new size sigma_divisor).total_weight),
            ((List.zipWith (fun (p : Pixel) w => (p.2.1 : ℝ) * w) img.pixels
                (GaussianMask.new size sigma_divisor).weights).sum /
              (GaussianMask.new size sigma_divisor).total_weight),
            ((List.zipWith (fun (p : Pixel) w => (p.2.2 : ℝ) * w) img.pixels
                (GaussianMask.new size sigma_divisor).weights).sum /
              (GaussianMask.new size sigma_divisor).total_weight)) := by
  have hlen' : img.pixels.length = (GaussianMask.new size sigma_divisor).weights.length := by
    rw [mask_weights_length, hlen, hw, hh]
  constructor
  · intro i hi
    omega
  · unfold avg_rgb_with_mask
    rw [if_pos (le_of_eq hlen')]

/-- Witness for C9 on a concrete `1 × 1` image. -/
theorem C9_avg_weight_lookups_in_bounds_witness :
    (∀ i, i < (Image.mk 1 1 [(8, 8, 8)]).pixels.length →
      i < (GaussianMask.new 1 2).weights.length) ∧
    avg_rgb_with_mask (Image.mk 1 1 [(8, 8, 8)]) (GaussianMask.new 1 2) =
      some (((List.zipWith (fun (p : Pixel) w => (p.1 : ℝ) * w)
                (Image.mk 1 1 [(8, 8, 8)]).pixels (GaussianMask.new 1 2).weights).sum /
              (GaussianMask.new 1 2).total_weight),
            ((List.zipWith (fun (p : Pixel) w => (p.2.1 : ℝ) * w)
                (Image.mk 1 1 [(8, 8, 8)]).pixels (GaussianMask.new 1 2).weights).sum /
              (GaussianMask.new 1 2).total_weight),
            ((List.zipWith (fun (p : Pixel) w => (p.2.2 : ℝ) * w)
                (Image.mk 1 1 [(8, 8, 8)]).pixels (GaussianMask.new 1 2).weights).sum /
              (GaussianMask.new 1 2).total_weight)) :=
  C9_avg_weight_lookups_in_bounds 1 2 (Image.mk 1 1 [(8, 8, 8)]) rfl rfl (by norm_num)

/-! ### Candidate count (C7) and fingerprint matching (C8) -/

/-- C7: for every library with at least one tile, the candidate count of
`find_best_tile` equals `clamp(tile_count / 10, 10, 100)` further clamped to
`[1, tile_count]`; in particular it is at least 1, at most `tile_count`, and
at most 100. -/
theorem C7_candidate_count (n : ℕ) (hn : 1 ≤ n) :
    kOf n = min (max (min (max (n / 10) 10) 100) 1) n ∧
    1 ≤ kOf n ∧ kOf n ≤ n ∧ kOf n ≤ 100 := by
  unfold kOf KD_TREE_K_DIVISOR KD_TREE_K_MIN KD_TREE_K_MAX
  simp only [Nat.max_def, Nat.min_def]
  split_ifs <;> omega

/-- Witness for C7 at `n = 42`. -/
theorem C7_candidate_count_witness :
    kOf 42 = min (max (min (max (42 / 10) 10) 100) 1) 42 ∧
    1 ≤ kOf 42 ∧ kOf 42 ≤ 42 ∧ kOf 42 ≤ 100 :=
  C7_candidate_count 42 (by norm_num)

/-- C8: `matches_config` is true exactly when the directory, tile size and
sigma divisor all equal the stored fingerprint (sigma by value equality);
in particular a library built with sigma divisor 4 never matches a query
with sigma divisor 8. -/
theorem C8_matches_config_iff {α : Type} [LinearOrderedField α] :
    (∀ (lib : TileLibrary α) (dir : String) (size : ℕ) (sigma_divisor : α),
      lib.matches_config dir size sigma_divisor = true ↔
        (lib.src_dir = dir ∧ lib.tile_size = size ∧ lib.sigma_divisor = sigma_divisor)) ∧
    (∀ lib : TileLibrary α, lib.sigma_divisor = 4 →
      lib.matches_config lib.src_dir lib.tile_size 8 = false) := by
  constructor
  · intro lib dir size sigma_divisor
    simp [TileLibrary.matches_config, Bool.and_eq_true, beq_iff_eq, and_assoc]
  · intro lib h4
    simp only [TileLibrary.matches_config, Bool.and_eq_false_iff]
    right
    rw [h4]
    simp only [decide_eq_false_iff_not]
    norm_num

/-- Witness for C8: a concrete rational library with fingerprint
`("tiles", 32, 4)`. -/
theorem C8_matches_config_iff_witness :
    ((TileLibrary.mk [] [] "tiles" 32 (4 : ℚ) (GaussianMask.mk [] 0)).matches_config
        "tiles" 32 4 = true ↔
      ((TileLibrary.mk [] [] "tiles" 32 (4 : ℚ) (GaussianMask.mk [] 0)).src_dir = "tiles" ∧
       (TileLibrary.mk [] [] "tiles" 32 (4 : ℚ) (GaussianMask.mk [] 0)).tile_size = 32 ∧
       (TileLibrary.mk [] [] "tiles" 32 (4 : ℚ) (GaussianMask.mk [] 0)).sigma_divisor = 4)) ∧
    (TileLibrary.mk [] [] "tiles" 32 (4 : ℚ) (GaussianMask.mk [] 0)).matches_config
      "tiles" 32 8 = false :=
  ⟨(C8_matches_config_iff (α := ℚ)).1 _ "tiles" 32 4,
   (C8_matches_config_iff (α := ℚ)).2 _ rfl⟩

/-! ### Padding arithmetic (C4) -/

/-- Without `u32` overflow, `padDim` is the ceiling-to-multiple expression. -/
lemma padDim_no_overflow (w t : ℕ) (ht : 0 < t) (hb : w + t ≤ u32Mod) :
    padDim w t = (w + t - 1) / t * t := by
  unfold padDim
  have hm1 : (w + t + (u32Mod - 1)) % u32Mod = w + t - 1 := by
    unfold u32Mod at *
    omega
  rw [hm1]
  have hle : (w + t - 1) / t * t ≤ w + t - 1 := Nat.div_mul_le_self _ _
  have hm2 : (w + t - 1) / t * t % u32Mod = (w + t - 1) / t * t := by
    apply Nat.mod_eq_of_lt
    unfold u32Mod at *
    omega
  rw [hm2]

lemma ceil_mul_dvd (w t : ℕ) : t ∣ (w + t - 1) / t * t :=
  dvd_mul_left t _

lemma ceil_mul_ge (w t : ℕ) (ht : 0 < t) : w ≤ (w + t - 1) / t * t := by
  rw [mul_comm]
  have hd := Nat.div_add_mod (w + t - 1) t
  have hr := Nat.mod_lt (w + t - 1) ht
  omega

lemma ceil_mul_min (w t m : ℕ) (ht : 0 < t) (hdvd : t ∣ m) (hm : w ≤ m) :
    (w + t - 1) / t * t ≤ m := by
  obtain ⟨s, rfl⟩ := hdvd
  have h1 : w + t - 1 ≤ t * s + (t - 1) := by omega
  have h2 : (w + t - 1) / t ≤ (t * s + (t - 1)) / t := Nat.div_le_div_right h1
  have h3 : (t * s + (t - 1)) / t = s := by
    rw [Nat.mul_add_div ht, Nat.div_eq_of_lt (by omega)]
    omega
  calc (w + t - 1) / t * t ≤ s * t := Nat.mul_le_mul_right t (by omega)
    _ = t * s := mul_comm s t

lemma padDim_of_dvd (w t : ℕ) (ht : 0 < t) (hb : w + t ≤ u32Mod) (hdvd : t ∣ w) :
    padDim w t = w := by
  rw [padDim_no_overflow w t ht hb]
  obtain ⟨a, rfl⟩ := hdvd
  have h1 : t * a + t - 1 = t * a + (t - 1) := by omega
  rw [h1, Nat.mul_add_div ht, Nat.div_eq_of_lt (by omega), Nat.add_zero, Nat.mul_comm]

/-- C4 (amended with the no-overflow side conditions `w + t ≤ 2^32` and
`h + t ≤ 2^32`): for `w, h, t > 0` the padded dimensions computed by
`generate_mosaic` are the smallest multiples of `tile_size` at least `w`
and `h`; and when both original dimensions are already multiples of
`tile_size`, the original pixel buffer is used unmodified (no
`resize_exact`). -/
theorem C4_padding_smallest_multiple {α : Type} [LinearOrderedField α] (env : Env α)
    (w h t : ℕ) (hw : 0 < w) (hh : 0 < h) (ht : 0 < t)
    (hbw : w + t ≤ u32Mod) (hbh : h + t ≤ u32Mod) :
    (t ∣ padDim w t ∧ w ≤ padDim w t ∧ ∀ m, t ∣ m → w ≤ m → padDim w t ≤ m) ∧
    (t ∣ padDim h t ∧ h ≤ padDim h t ∧ ∀ m, t ∣ m → h ≤ m → padDim h t ≤ m) ∧
    (∀ img : Image, img.width = w → img.height = h → t ∣ w → t ∣ h →
      paddedTarget env img t = img) := by
  refine ⟨?_, ?_, ?_⟩
  · rw [padDim_no_overflow w t ht hbw]
    exact ⟨ceil_mul_dvd w t, ceil_mul_ge w t ht,
      fun m hdvd hm => ceil_mul_min w t m ht hdvd hm⟩
  · rw [padDim_no_overflow h t ht hbh]
    exact ⟨ceil_mul_dvd h t, ceil_mul_ge h t ht,
      fun m hdvd hm => ceil_mul_min h t m ht hdvd hm⟩
  · intro img hiw hih hdw hdh
    unfold paddedTarget
    rw [if_pos]
    constructor
    · rw [hiw]
      exact padDim_of_dvd w t ht hbw hdw
    · rw [hih]
      exact padDim_of_dvd h t ht hbh hdh

/-- Counterexample to C4 as stated: at width `2^32 - 1` and tile size 2 the
wrapping `u32` padding arithmetic yields 0, which is not at least the
original width (Rust release builds wrap; debug builds panic instead of
producing any padded dimension). -/
theorem C4_padding_counterexample :
    0 < 4294967295 ∧ 0 < 2 ∧ padDim 4294967295 2 = 0 ∧
      ¬ (4294967295 ≤ padDim 4294967295 2) := by
  refine ⟨by norm_num, by norm_num, ?_, ?_⟩ <;> decide

/-- A trivial rational environment used to instantiate witnesses. -/
def trivialEnvQ : Env ℚ :=
  { loadImage := fun _ => .error (.Io "unused"),
    loadResized := fun _ _ => .error (.Io "unused"),
    resizeExact := fun img _ _ => img,
    overlay := fun canvas _ _ _ => canvas,
    nearestN := fun _ _ _ => [],
    encodePng := fun _ => .ok [],
    base64Encode := fun _ => "" }

/-- Witness for the amended C4 at `w = 4`, `h = 6`, `t = 2`. -/
theorem C4_padding_smallest_multiple_witness :
    ((2 ∣ padDim 4 2 ∧ 4 ≤ padDim 4 2 ∧ ∀ m, 2 ∣ m → 4 ≤ m → padDim 4 2 ≤ m) ∧
     (2 ∣ padDim 6 2 ∧ 6 ≤ padDim 6 2 ∧ ∀ m, 2 ∣ m → 6 ≤ m → padDim 6 2 ≤ m) ∧
     (∀ img : Image, img.width = 4 → img.height = 6 → 2 ∣ 4 → 2 ∣ 6 →
       paddedTarget trivialEnvQ img 2 = img)) :=
  C4_padding_smallest_multiple trivialEnvQ 4 6 2 (by norm_num) (by norm_num)
    (by norm_num) (by norm_num [u32Mod]) (by norm_num [u32Mod])

/-! ### Characterization of the scoring loop (C1, C2) -/

/-- Invariant of the scoring loop: starting from a live accumulator
`(b, some m)`, the final minimum is at most `m` and at most every score in
the remaining list, and the final index is either the starting one (nothing
strictly improved) or the first list position attaining the final minimum. -/
lemma bestGo_spec {α : Type} [LinearOrderedField α] (usage : ℕ → ℕ) (penalty : α) :
    ∀ (l : List (ℕ × α)) (b : ℕ) (m : α),
      ∃ m', (bestGo usage penalty l (b, some m)).2 = some m' ∧ m' ≤ m ∧
        (∀ p ∈ l, m' ≤ scoreOf usage penalty p) ∧
        (((bestGo usage penalty l (b, some m)).1 = b ∧ m' = m) ∨
          ∃ j, ∃ hj : j < l.length,
            (bestGo usage penalty l (b, some m)).1 = (l.get ⟨j, hj⟩).1 ∧
            m' = scoreOf usage penalty (l.get ⟨j, hj⟩) ∧ m' < m ∧
            ∀ k, ∀ hk : k < j, m' < scoreOf usage penalty (l.get ⟨k, by omega⟩)) := by
  intro l
  induction l with
  | nil =>
    intro b m
    exact ⟨m, rfl, le_refl m, by simp, Or.inl ⟨rfl, rfl⟩⟩
  | cons p rest ih =>
    intro b m
    by_cases hlt : scoreOf usage penalty p < m
    · have hred : bestGo usage penalty (p :: rest) (b, some m)
          = bestGo usage penalty rest (p.1, some (scoreOf usage penalty p)) := by
        simp [bestGo, hlt]
      obtain ⟨m', heq, hle, hall, hcase⟩ := ih p.1 (scoreOf usage penalty p)
      refine ⟨m', by rw [hred]; exact heq, hle.trans hlt.le, ?_, ?_⟩
      · intro q hq
        rcases List.mem_cons.mp hq with hq | hq
        · subst hq
          exact hle
        · exact hall q hq
      · rcases hcase with ⟨hb1, hm1⟩ | ⟨j, hj, hb1, hm1, hm2, hstrict⟩
        · refine Or.inr ⟨0, by simp, ?_, ?_, ?_, ?_⟩
          · rw [hred, hb1]
            rfl
          · exact hm1
          · rw [hm1]
            exact hlt
          · intro k hk
            omega
        · refine Or.inr ⟨j + 1, by simpa using Nat.succ_lt_succ hj, ?_, ?_, ?_, ?_⟩
          · rw [hred, hb1]
            rfl
          · exact hm1
          · exact hm2.trans hlt
          · intro k hk
            match k, hk with
            | 0, _ => exact hm2
            | k + 1, hk => exact hstrict k (by omega)
    · have hred : bestGo usage penalty (p :: rest) (b, some m)
          = bestGo usage penalty rest (b, some m) := by
        simp [bestGo, hlt]
      obtain ⟨m', heq, hle, hall, hcase⟩ := ih b m
      refine ⟨m', by rw [hred]; exact heq, hle, ?_, ?_⟩
      · intro q hq
        rcases List.mem_cons.mp hq with hq | hq
        · subst hq
          exact le_trans hle (not_lt.mp hlt)
        · exact hall q hq
      · rcases hcase with ⟨hb1, hm1⟩ | ⟨j, hj, hb1, hm1, hm2, hstrict⟩
        · exact Or.inl ⟨by rw [hred]; exact hb1, hm1⟩
        · refine Or.inr ⟨j + 1, by simpa using Nat.succ_lt_succ hj, ?_, ?_, ?_, ?_⟩
          · rw [hred, hb1]
            rfl
          · exact hm1
          · exact hm2
          · intro k hk
            match k, hk with
            | 0, _ => exact lt_of_lt_of_le hm2 (not_lt.mp hlt)
            | k + 1, hk => exact hstrict k (by omega)

/-- `findBestAmong` on a nonempty candidate list returns the entry of
minimal score, ties broken by the first position in the list. -/
lemma findBestAmong_spec {α : Type} [LinearOrderedField α] (usage : ℕ → ℕ)
    (penalty : α) (nearest : List (ℕ × α)) (hne : nearest ≠ []) :
    ∃ j, ∃ hj : j < nearest.length,
      findBestAmong usage penalty nearest = (nearest.get ⟨j, hj⟩).1 ∧
      (∀ k, ∀ hk : k < nearest.length,
        scoreOf usage penalty (nearest.get ⟨j, hj⟩)
          ≤ scoreOf usage penalty (nearest.get ⟨k, hk⟩)) ∧
      (∀ k, ∀ hk : k < j,
        scoreOf usage penalty (nearest.get ⟨j, hj⟩)
          < scoreOf usage penalty (nearest.get ⟨k, by omega⟩)) := by
  match nearest, hne with
  | p :: rest, _ =>
    have hred : findBestAmong usage penalty (p :: rest)
        = (bestGo usage penalty rest (p.1, some (scoreOf usage penalty p))).1 := by
      simp [findBestAmong, bestGo]
    obtain ⟨m', heq, hle, hall, hcase⟩ := bestGo_spec usage penalty rest p.1
      (scoreOf usage penalty p)
    rcases hcase with ⟨hb1, hm1⟩ | ⟨j, hj, hb1, hm1, hm2, hstrict⟩
    · refine ⟨0, by simp, by rw [hred, hb1]; rfl, ?_, ?_⟩
      · intro k hk
        match k, hk with
        | 0, _ => exact le_refl _
        | k + 1, hk =>
          have := hall (rest.get ⟨k, by simpa using hk⟩) (List.get_mem _ _ _)
          calc scoreOf usage penalty p = m' := hm1.symm
            _ ≤ _ := this
      · intro k hk
        omega
    · refine ⟨j + 1, by simpa using Nat.succ_lt_succ hj, by rw [hred, hb1]; rfl, ?_, ?_⟩
      · intro k hk
        match k, hk with
        | 0, _ =>
          show scoreOf usage penalty (rest.get ⟨j, hj⟩) ≤ scoreOf usage penalty p
          rw [← hm1]
          exact hm2.le
        | k + 1, hk =>
          show scoreOf usage penalty (rest.get ⟨j, hj⟩)
            ≤ scoreOf usage penalty (rest.get ⟨k, by simpa using hk⟩)
          rw [← hm1]
          exact hall _ (List.get_mem _ _ _)
      · intro k hk
        match k, hk with
        | 0, _ =>
          show scoreOf usage penalty (rest.get ⟨j, hj⟩) < scoreOf usage penalty p
          rw [← hm1]
          exact hm2
        | k + 1, hk =>
          show scoreOf usage penalty (rest.get ⟨j, hj⟩)
            < scoreOf usage penalty (rest.get ⟨k, by omega⟩)
          rw [← hm1]
          exact hstrict k (by omega)

/-- The default tile used to express `tiles[i]` lookups in claim statements. -/
def dfltTile {α : Type} [LinearOrderedField α] : Tile α := Tile.new "" (0, 0, 0) 0

/-- The color of `tiles[i]` (claims quantify only over in-bounds indices). -/
def tileColorAt {α : Type} [LinearOrderedField α] (lib : TileLibrary α) (i : ℕ) :
    α × α × α :=
  (lib.tiles.getD i dfltTile).color

/-- C1: with every usage count zero, `find_best_tile` returns the index of
the tile minimizing squared Euclidean color distance to the target among the
candidates yielded by the spatial index, ties broken in favor of the
candidate yielded first. -/
theorem C1_zero_usage_min_distance {α : Type} [LinearOrderedField α] (env : Env α)
    (lib : TileLibrary α) (target_color : α × α × α) (usage : ℕ → ℕ) (penalty : α)
    (husage : ∀ i, usage i = 0)
    (hne : env.nearestN lib.color_points target_color (kOf lib.tiles.length) ≠ [])
    (hdist : ∀ p ∈ env.nearestN lib.color_points target_color (kOf lib.tiles.length),
      p.2 = sqDist (tileColorAt lib p.1) target_color) :
    ∃ j, ∃ hj : j <
        (env.nearestN lib.color_points target_color (kOf lib.tiles.length)).length,
      lib.find_best_tile env target_color usage penalty
        = ((env.nearestN lib.color_points target_color
            (kOf lib.tiles.length)).get ⟨j, hj⟩).1 ∧
      (∀ k, ∀ hk : k <
          (env.nearestN lib.color_points target_color (kOf lib.tiles.length)).length,
        sqDist (tileColorAt lib ((env.nearestN lib.color_points target_color
            (kOf lib.tiles.length)).get ⟨j, hj⟩).1) target_color
          ≤ sqDist (tileColorAt lib ((env.nearestN lib.color_points target_color
              (kOf lib.tiles.length)).get ⟨k, hk⟩).1) target_color) ∧
      (∀ k, ∀ hk : k < j,
        sqDist (tileColorAt lib ((env.nearestN lib.color_points target_color
            (kOf lib.tiles.length)).get ⟨j, hj⟩).1) target_color
          < sqDist (tileColorAt lib ((env.nearestN lib.color_points target_color
              (kOf lib.tiles.length)).get ⟨k, by omega⟩).1) target_color) := by
  have hscore : ∀ p ∈ env.nearestN lib.color_points target_color (kOf lib.tiles.length),
      scoreOf usage penalty p = sqDist (tileColorAt lib p.1) target_color := by
    intro p hp
    simp [scoreOf, husage p.1, hdist p hp]
  obtain ⟨j, hj, hfind, hmin, hstrict⟩ := findBestAmong_spec usage penalty
    (env.nearestN lib.color_points target_color (kOf lib.tiles.length)) hne
  refine ⟨j, hj, hfind, ?_, ?_⟩
  · intro k hk
    have h := hmin k hk
    rwa [hscore _ (List.get_mem _ _ _), hscore _ (List.get_mem _ _ _)] at h
  · intro k hk
    have h := hstrict k hk
    rwa [hscore _ (List.get_mem _ _ _), hscore _ (List.get_mem _ _ _)] at h

/-- Concrete environment for the C1 witness: the KD-tree query yields the
two tiles with their true squared distances to the target. -/
def envC1 : Env ℚ :=
  { trivialEnvQ with nearestN := fun _ _ _ => [(0, 100), (1, 1)] }

/-- Concrete two-tile library for the C1 witness. -/
def libC1 : TileLibrary ℚ :=
  { tiles := [Tile.new "a.png" (10, 0, 0) 2, Tile.new "b.png" (1, 0, 0) 2],
    color_points := [(10, 0, 0), (1, 0, 0)],
    src_dir := "tiles", tile_size := 2, sigma_divisor := 4,
    mask := GaussianMask.mk [1, 1, 1, 1] 4 }

/-- Witness for C1: target `(0,0,0)`, all usage counts zero. -/
theorem C1_zero_usage_min_distance_witness :
    ∃ j, ∃ hj : j <
        (envC1.nearestN libC1.color_points (0, 0, 0) (kOf libC1.tiles.length)).length,
      libC1.find_best_tile envC1 (0, 0, 0) (fun _ => 0) 1
        = ((envC1.nearestN libC1.color_points (0, 0, 0)
            (kOf libC1.tiles.length)).get ⟨j, hj⟩).1 ∧
      (∀ k, ∀ hk : k <
          (envC1.nearestN libC1.color_points (0, 0, 0) (kOf libC1.tiles.length)).length,
        sqDist (tileColorAt libC1 ((envC1.nearestN libC1.color_points (0, 0, 0)
            (kOf libC1.tiles.length)).get ⟨j, hj⟩).1) (0, 0, 0)
          ≤ sqDist (tileColorAt libC1 ((envC1.nearestN libC1.color_points (0, 0, 0)
              (kOf libC1.tiles.length)).get ⟨k, hk⟩).1) (0, 0, 0)) ∧
      (∀ k, ∀ hk : k < j,
        sqDist (tileColorAt libC1 ((envC1.nearestN libC1.color_points (0, 0, 0)
            (kOf libC1.tiles.length)).get ⟨j, hj⟩).1) (0, 0, 0)
          < sqDist (tileColorAt libC1 ((envC1.nearestN libC1.color_points (0, 0, 0)
              (kOf libC1.tiles.length)).get ⟨k, by omega⟩).1) (0, 0, 0)) :=
  C1_zero_usage_min_distance envC1 libC1 (0, 0, 0) (fun _ => 0) 1
    (fun _ => rfl) (by decide)
    (by
      intro p hp
      simp only [envC1, trivialEnvQ] at hp
      fin_cases hp <;>
        norm_num [sqDist, tileColorAt, libC1, dfltTile, Tile.new])

/-- C2: `find_best_tile` scores each candidate as its squared color distance
plus `usage_count × penalty × 50`; for two candidates of identical tile
color with positive penalty, the one with strictly lower usage count gets a
strictly lower score, and the more-used one is never returned. -/
theorem C2_penalty_prefers_less_used {α : Type} [LinearOrderedField α] (env : Env α)
    (lib : TileLibrary α) (target_color : α × α × α) (usage : ℕ → ℕ) (penalty : α)
    (a b : ℕ × α) (hpen : 0 < penalty)
    (ha : a ∈ env.nearestN lib.color_points target_color (kOf lib.tiles.length))
    (hb : b ∈ env.nearestN lib.color_points target_color (kOf lib.tiles.length))
    (hdist : ∀ p ∈ env.nearestN lib.color_points target_color (kOf lib.tiles.length),
      p.2 = sqDist (tileColorAt lib p.1) target_color)
    (hcol : tileColorAt lib a.1 = tileColorAt lib b.1)
    (husage : usage a.1 < usage b.1) :
    (∀ p ∈ env.nearestN lib.color_points target_color (kOf lib.tiles.length),
      scoreOf usage penalty p
        = sqDist (tileColorAt lib p.1) target_color + (usage p.1 : α) * penalty * 50) ∧
    scoreOf usage penalty a < scoreOf usage penalty b ∧
    lib.find_best_tile env target_color usage penalty ≠ b.1 := by
  have hform : ∀ p ∈ env.nearestN lib.color_points target_color (kOf lib.tiles.length),
      scoreOf usage penalty p
        = sqDist (tileColorAt lib p.1) target_color + (usage p.1 : α) * penalty * 50 := by
    intro p hp
    rw [scoreOf, hdist p hp, PENALTY_MULTIPLIER]
  have hab : scoreOf usage penalty a < scoreOf usage penalty b := by
    rw [scoreOf, scoreOf, hdist a ha, hdist b hb, hcol]
    have h50 : (0 : α) < penalty * PENALTY_MULTIPLIER α := by
      rw [PENALTY_MULTIPLIER]
      positivity
    have hcast : (usage a.1 : α) < (usage b.1 : α) := by exact_mod_cast husage
    have hmul := mul_lt_mul_of_pos_right hcast h50
    rw [mul_assoc, mul_assoc]
    exact add_lt_add_left hmul _
  refine ⟨hform, hab, ?_⟩
  intro heqb
  obtain ⟨j, hj, hfind, hmin, hstrict⟩ := findBestAmong_spec usage penalty
    (env.nearestN lib.color_points target_color (kOf lib.tiles.length))
    (List.ne_nil_of_mem ha)
  obtain ⟨⟨k, hk⟩, hgetk⟩ := List.mem_iff_get.mp ha
  have h1 : scoreOf usage penalty ((env.nearestN lib.color_points target_color
      (kOf lib.tiles.length)).get ⟨j, hj⟩) ≤ scoreOf usage penalty a := by
    rw [← hgetk]
    exact hmin k hk
  have hp1 : ((env.nearestN lib.color_points target_color
      (kOf lib.tiles.length)).get ⟨j, hj⟩).1 = b.1 := by
    rw [TileLibrary.find_best_tile] at heqb
    rw [hfind] at heqb
    exact heqb
  have hscorep : scoreOf usage penalty ((env.nearestN lib.color_points target_color
      (kOf lib.tiles.length)).get ⟨j, hj⟩) = scoreOf usage penalty b := by
    rw [scoreOf, scoreOf, hdist _ (List.get_mem _ _ _), hdist b hb, hp1]
  have hcontra := lt_of_le_of_lt h1 hab
  rw [hscorep] at hcontra
  exact lt_irrefl _ hcontra

/-- Concrete environment for the C2 witness: two identical-color candidates
at equal distance. -/
def envC2 : Env ℚ :=
  { trivialEnvQ with nearestN := fun _ _ _ => [(0, 4), (1, 4)] }

/-- Concrete library with two identical-color tiles for the C2 witness. -/
def libC2 : TileLibrary ℚ :=
  { tiles := [Tile.new "a.png" (2, 0, 0) 1, Tile.new "b.png" (2, 0, 0) 1],
    color_points := [(2, 0, 0), (2, 0, 0)],
    src_dir := "tiles", tile_size := 1, sigma_divisor := 4,
    mask := GaussianMask.mk [1] 1 }

/-- Witness for C2: tile 0 has been used once, tile 1 never; with penalty 1
the selection never returns tile 0. -/
theorem C2_penalty_prefers_less_used_witness :
    (∀ p ∈ envC2.nearestN libC2.color_points (0, 0, 0) (kOf libC2.tiles.length),
      scoreOf (fun i => if i = 0 then 1 else 0) 1 p
        = sqDist (tileColorAt libC2 p.1) (0, 0, 0)
          + (((fun i => if i = 0 then 1 else 0) p.1 : ℕ) : ℚ) * 1 * 50) ∧
    scoreOf (fun i => if i = 0 then 1 else 0) 1 ((1 : ℕ), (4 : ℚ))
      < scoreOf (fun i => if i = 0 then 1 else 0) 1 ((0 : ℕ), (4 : ℚ)) ∧
    libC2.find_best_tile envC2 (0, 0, 0) (fun i => if i = 0 then 1 else 0) 1
      ≠ ((0 : ℕ), (4 : ℚ)).1 :=
  C2_penalty_prefers_less_used envC2 libC2 (0, 0, 0)
    (fun i => if i = 0 then 1 else 0) 1 ((1 : ℕ), (4 : ℚ)) ((0 : ℕ), (4 : ℚ))
    (by norm_num) (by decide) (by decide)
    (by
      intro p hp
      simp only [envC2, trivialEnvQ] at hp
      fin_cases hp <;>
        norm_num [sqDist, tileColorAt, libC2, dfltTile, Tile.new])
    (by norm_num [tileColorAt, libC2, dfltTile, Tile.new]) (by decide)

/-! ### Library construction (C3) -/

/-- Unfolding of `TileLibrary.new` (the `let` bindings reduced). -/
lemma TileLibrary.new_eq (entries : List FileEntry) (dir : String) (size : ℕ)
    (sigma_divisor : ℝ) :
    TileLibrary.new entries dir size sigma_divisor =
      if (load_library entries size (GaussianMask.new size sigma_divisor)).isEmpty then
        .error (.Config "No valid images found in directory")
      else
        .ok { tiles := load_library entries size (GaussianMask.new size sigma_divisor),
              color_points := (load_library entries size
                (GaussianMask.new size sigma_divisor)).map (fun t => t.color),
              src_dir := dir, tile_size := size, sigma_divisor := sigma_divisor,
              mask := GaussianMask.new size sigma_divisor } := rfl

/-- For an entry whose decoded image (when present) is `size × size` with a
full pixel buffer, the `filter_map` closure of `load_library` emits a tile
exactly when the entry survives. -/
lemma load_entry_isSome (size : ℕ) (sigma_divisor : ℝ) (e : FileEntry)
    (hdec : ∀ img, e.decoded = some img →
      img.pixels.length = img.width * img.height ∧ img.width = size ∧ img.height = size) :
    (loadEntry size (GaussianMask.new size sigma_divisor) e).isSome = survives e := by
  cases hext : e.ext with
  | none => simp [loadEntry, survives, hext]
  | some x =>
    by_cases hsup : SUPPORTED_EXTENSIONS.contains x.toLower
    · cases hd : e.decoded with
      | none => simp [loadEntry, survives, hext, hsup, hd]
      | some img =>
        obtain ⟨hpl, hwi, hhi⟩ := hdec img hd
        have havg : (avg_rgb_with_mask img (GaussianMask.new size sigma_divisor)).isSome := by
          unfold avg_rgb_with_mask
          rw [if_pos]
          · rfl
          · rw [mask_weights_length, hpl, hwi, hhi]
        obtain ⟨v, hv⟩ := Option.isSome_iff_exists.mp havg
        have hsup' : x.toLower ∈ SUPPORTED_EXTENSIONS := by simpa using hsup
        simp [loadEntry, survives, hext, hsup', hd, hv]
    · have hsup' : ¬ x.toLower ∈ SUPPORTED_EXTENSIONS := by simpa using hsup
      simp [loadEntry, survives, hext, hsup']

/-- `load_library` yields no tiles exactly when no entry survives. -/
lemma load_library_eq_nil_iff (entries : List FileEntry) (size : ℕ)
    (sigma_divisor : ℝ)
    (hdec : ∀ e ∈ entries, ∀ img, e.decoded = some img →
      img.pixels.length = img.width * img.height ∧ img.width = size ∧ img.height = size) :
    load_library entries size (GaussianMask.new size sigma_divisor) = [] ↔
      ∀ e ∈ entries, survives e = false := by
  rw [load_library, List.filterMap_eq_nil]
  constructor
  · intro h e he
    have hs := load_entry_isSome size sigma_divisor e (hdec e he)
    rw [h e he] at hs
    simpa using hs.symm
  · intro h e he
    have hs := load_entry_isSome size sigma_divisor e (hdec e he)
    rw [h e he] at hs
    exact Option.not_isSome_iff_eq_none.mp (by simp [hs])

/-- C3: `TileLibrary::new` returns a `Config` error exactly when zero tiles
survive loading (no enumerated file both has a supported extension and
decodes); any error it returns is that `Config` error (per-file decode
failures are swallowed, never surfaced); and on success the library holds at
least one tile. The hypothesis records the `resize_to_fill` postcondition
that every decoded tile image is `size × size`. -/
theorem C3_new_config_error_iff (entries : List FileEntry) (dir : String) (size : ℕ)
    (sigma_divisor : ℝ)
    (hdec : ∀ e ∈ entries, ∀ img, e.decoded = some img →
      img.pixels.length = img.width * img.height ∧ img.width = size ∧ img.height = size) :
    ((∃ msg, TileLibrary.new entries dir size sigma_divisor = .error (.Config msg)) ↔
      ∀ e ∈ entries, survives e = false) ∧
    (∀ err, TileLibrary.new entries dir size sigma_divisor = .error err →
      err = .Config "No valid images found in directory") ∧
    (∀ lib, TileLibrary.new entries dir size sigma_divisor = .ok lib →
      1 ≤ lib.tiles.length) := by
  rw [TileLibrary.new_eq]
  by_cases hempty : load_library entries size (GaussianMask.new size sigma_divisor) = []
  · rw [if_pos (by simp [hempty])]
    refine ⟨?_, ?_, ?_⟩
    · constructor
      · intro _
        exact (load_library_eq_nil_iff entries size sigma_divisor hdec).mp hempty
      · intro _
        exact ⟨"No valid images found in directory", rfl⟩
    · intro err herr
      injection herr with h
      rw [h]
    · intro lib hlib
      cases hlib
  · rw [if_neg (by simpa using hempty)]
    refine ⟨?_, ?_, ?_⟩
    · constructor
      · intro ⟨msg, hmsg⟩
        cases hmsg
      · intro hall
        exact absurd ((load_library_eq_nil_iff entries size sigma_divisor hdec).mpr hall)
          hempty
    · intro err herr
      cases herr
    · intro lib hlib
      injection hlib with h
      rw [← h]
      exact List.length_pos.mpr hempty

/-- A concrete entry list for the C3 witness: one decodable PNG. -/
def entriesC3 : List FileEntry :=
  [{ path := "a.png", ext := some "png", decoded := some (Image.mk 1 1 [(9, 9, 9)]) }]

/-- Witness for C3 on `entriesC3` with `size = 1`. -/
theorem C3_new_config_error_iff_witness :
    ((∃ msg, TileLibrary.new entriesC3 "tiles" 1 4 = .error (.Config msg)) ↔
      ∀ e ∈ entriesC3, survives e = false) ∧
    (∀ err, TileLibrary.new entriesC3 "tiles" 1 4 = .error err →
      err = .Config "No valid images found in directory") ∧
    (∀ lib, TileLibrary.new entriesC3 "tiles" 1 4 = .ok lib → 1 ≤ lib.tiles.length) :=
  C3_new_config_error_iff entriesC3 "tiles" 1 4
    (by
      intro e he img himg
      fin_cases he
      simp only [entriesC3, Option.some.injEq] at himg
      rw [← himg]
      exact ⟨rfl, rfl, rfl⟩)

/-! ### Frame property of generation (C10) -/

/-- How one tile may evolve across a generation call: identity except that an
empty image cache may become populated. -/
def TileEvol {α : Type} (t t2 : Tile α) : Prop :=
  t2.path = t.path ∧ t2.color = t.color ∧ t2.tile_size = t.tile_size ∧
    (t2.image_cache = t.image_cache ∨
      (t.image_cache = none ∧ ∃ img, t2.image_cache = some img))

/-- Pointwise tile evolution of the whole tile list. -/
def TilesEvol {α : Type} (ts ts2 : List (Tile α)) : Prop :=
  ts2.length = ts.length ∧
  ∀ i, ∀ hi : i < ts.length, ∀ hi2 : i < ts2.length,
    TileEvol (ts.get ⟨i, hi⟩) (ts2.get ⟨i, hi2⟩)

lemma tileEvol_refl {α : Type} (t : Tile α) : TileEvol t t :=
  ⟨rfl, rfl, rfl, Or.inl rfl⟩

lemma tileEvol_trans {α : Type} {t1 t2 t3 : Tile α}
    (h12 : TileEvol t1 t2) (h23 : TileEvol t2 t3) : TileEvol t1 t3 := by
  obtain ⟨hp12, hc12, hs12, hm12⟩ := h12
  obtain ⟨hp23, hc23, hs23, hm23⟩ := h23
  refine ⟨hp23.trans hp12, hc23.trans hc12, hs23.trans hs12, ?_⟩
  rcases hm12 with hm12 | ⟨hn1, img, hi2⟩
  · rcases hm23 with hm23 | ⟨hn2, img, hi3⟩
    · exact Or.inl (hm23.trans hm12)
    · exact Or.inr ⟨hm12 ▸ hn2, img, hi3⟩
  · rcases hm23 with hm23 | ⟨hn2, img2, hi3⟩
    · exact Or.inr ⟨hn1, img, hm23.trans hi2⟩
    · rw [hi2] at hn2
      cases hn2

lemma tilesEvol_refl {α : Type} (ts : List (Tile α)) : TilesEvol ts ts :=
  ⟨rfl, fun _ _ _ => tileEvol_refl _⟩

lemma tilesEvol_trans {α : Type} {ts1 ts2 ts3 : List (Tile α)}
    (h12 : TilesEvol ts1 ts2) (h23 : TilesEvol ts2 ts3) : TilesEvol ts1 ts3 := by
  obtain ⟨hl12, hp12⟩ := h12
  obtain ⟨hl23, hp23⟩ := h23
  refine ⟨hl23.trans hl12, ?_⟩
  intro i hi hi3
  exact tileEvol_trans (hp12 i hi (by omega)) (hp23 i (by omega) hi3)

/-- `Tile::get_image` preserves path, color and tile size, and only ever
populates an empty cache. -/
lemma get_image_evol {α : Type} (env : Env α) (t : Tile α) (img : Image)
    (t2 : Tile α) (h : t.get_image env = .ok (img, t2)) : TileEvol t t2 := by
  unfold Tile.get_image at h
  cases hc : t.image_cache with
  | some cached =>
    rw [hc] at h
    injection h with h2
    injection h2 with h3 h4
    rw [← h4]
    exact tileEvol_refl t
  | none =>
    rw [hc] at h
    cases hl : env.loadResized t.path t.tile_size with
    | error e =>
      rw [hl] at h
      cases h
    | ok resized =>
      rw [hl] at h
      injection h with h2
      injection h2 with h3 h4
      rw [← h4]
      exact ⟨rfl, rfl, rfl, Or.inr ⟨hc, resized, rfl⟩⟩

/-- Updating position `i` of a tile list with an evolution of the tile that
was there is an evolution of the list. -/
lemma tilesEvol_set {α : Type} (ts : List (Tile α)) (i : ℕ) (t t2 : Tile α)
    (hget : ts[i]? = some t) (hevol : TileEvol t t2) :
    TilesEvol ts (ts.set i t2) := by
  obtain ⟨hi, hgt⟩ := List.getElem?_eq_some.mp hget
  refine ⟨List.length_set ts i t2 ▸ rfl, ?_⟩
  intro j hj hj2
  by_cases hij : i = j
  · subst hij
    rw [List.get_set_eq hj2, List.get_eq_getElem, hgt]
    exact hevol
  · rw [List.get_set_ne hij hj2]
    exact tileEvol_refl _

/-- The compositing pass only evolves the tile list (lazy cache fills),
whether it returns a canvas or an error. -/
lemma compositeLoop_evol {α : Type} (env : Env α) :
    ∀ (cms : List ((ℕ × ℕ) × ℕ)) (canvas : Image) (tiles : List (Tile α))
      (res : Except AppError Image) (tiles2 : List (Tile α)),
      compositeLoop env cms canvas tiles = some (res, tiles2) →
      TilesEvol tiles tiles2 := by
  intro cms
  induction cms with
  | nil =>
    intro canvas tiles res tiles2 h
    simp only [compositeLoop, Option.some.injEq, Prod.mk.injEq] at h
    rw [← h.2]
    exact tilesEvol_refl tiles
  | cons c rest ih =>
    obtain ⟨⟨x, y⟩, idx⟩ := c
    intro canvas tiles res tiles2 h
    cases hget : tiles[idx]? with
    | none => simp [compositeLoop, hget] at h
    | some t =>
      cases himg : t.get_image env with
      | error e =>
        simp only [compositeLoop, hget, himg, Option.some.injEq, Prod.mk.injEq] at h
        rw [← h.2]
        exact tilesEvol_refl tiles
      | ok p =>
        obtain ⟨img, t2⟩ := p
        simp only [compositeLoop, hget, himg] at h
        exact tilesEvol_trans
          (tilesEvol_set tiles idx t t2 hget (get_image_evol env t img t2 himg))
          (ih (env.overlay canvas img x y) (tiles.set idx t2) res tiles2 h)

/-- The frame conclusion of C10, for a final library whose tiles evolved. -/
lemma frame_of_tiles_evol {α : Type} (lib : TileLibrary α) (lib2 : TileLibrary α)
    (hsd : lib2.src_dir = lib.src_dir) (hts : lib2.tile_size = lib.tile_size)
    (hsg : lib2.sigma_divisor = lib.sigma_divisor) (hmk : lib2.mask = lib.mask)
    (hcp : lib2.color_points = lib.color_points)
    (hev : TilesEvol lib.tiles lib2.tiles) :
    lib2.src_dir = lib.src_dir ∧ lib2.tile_size = lib.tile_size ∧
    lib2.sigma_divisor = lib.sigma_divisor ∧ lib2.mask = lib.mask ∧
    lib2.color_points = lib.color_points ∧
    lib2.tiles.length = lib.tiles.length ∧
    (∀ i, ∀ hi : i < lib.tiles.length, ∀ hi2 : i < lib2.tiles.length,
      (lib2.tiles.get ⟨i, hi2⟩).path = (lib.tiles.get ⟨i, hi⟩).path ∧
      (lib2.tiles.get ⟨i, hi2⟩).color = (lib.tiles.get ⟨i, hi⟩).color ∧
      (lib2.tiles.get ⟨i, hi2⟩).tile_size = (lib.tiles.get ⟨i, hi⟩).tile_size ∧
      ((lib2.tiles.get ⟨i, hi2⟩).image_cache = (lib.tiles.get ⟨i, hi⟩).image_cache ∨
        ((lib.tiles.get ⟨i, hi⟩).image_cache = none ∧
          ∃ img, (lib2.tiles.get ⟨i, hi2⟩).image_cache = some img))) := by
  obtain ⟨hlen, hpt⟩ := hev
  exact ⟨hsd, hts, hsg, hmk, hcp, hlen, fun i hi hi2 => hpt i hi hi2⟩

/-- C10: across every completed `generate_mosaic` call, success or failure,
every library field other than the per-tile image caches is unchanged
(tile count, order, paths, colors, tile sizes, the spatial index input, the
fingerprint, the mask); each tile's cache either stays as it was or goes
from empty to populated, and a populated cache is never replaced. -/
theorem C10_generate_mosaic_frame {α : Type} [LinearOrderedField α] (env : Env α)
    (lib : TileLibrary α) (target_path : String) (config : MosaicConfig α)
    (res : Except AppError String) (lib2 : TileLibrary α)
    (hgen : lib.generate_mosaic env target_path config = some (res, lib2)) :
    lib2.src_dir = lib.src_dir ∧ lib2.tile_size = lib.tile_size ∧
    lib2.sigma_divisor = lib.sigma_divisor ∧ lib2.mask = lib.mask ∧
    lib2.color_points = lib.color_points ∧
    lib2.tiles.length = lib.tiles.length ∧
    (∀ i, ∀ hi : i < lib.tiles.length, ∀ hi2 : i < lib2.tiles.length,
      (lib2.tiles.get ⟨i, hi2⟩).path = (lib.tiles.get ⟨i, hi⟩).path ∧
      (lib2.tiles.get ⟨i, hi2⟩).color = (lib.tiles.get ⟨i, hi⟩).color ∧
      (lib2.tiles.get ⟨i, hi2⟩).tile_size = (lib.tiles.get ⟨i, hi⟩).tile_size ∧
      ((lib2.tiles.get ⟨i, hi2⟩).image_cache = (lib.tiles.get ⟨i, hi⟩).image_cache ∨
        ((lib.tiles.get ⟨i, hi⟩).image_cache = none ∧
          ∃ img, (lib2.tiles.get ⟨i, hi2⟩).image_cache = some img))) := by
  rw [TileLibrary.generate_mosaic] at hgen
  split at hgen
  · simp only [Option.some.injEq, Prod.mk.injEq] at hgen
    rw [← hgen.2]
    exact frame_of_tiles_evol lib lib rfl rfl rfl rfl rfl (tilesEvol_refl _)
  · split at hgen
    · simp at hgen
    · split at hgen
      · simp at hgen
      · split at hgen
        · simp at hgen
        · rename_i tiles2 hcomp
          have hev := compositeLoop_evol env _ _ _ _ _ hcomp
          simp only [Option.some.injEq, Prod.mk.injEq] at hgen
          rw [← hgen.2]
          exact frame_of_tiles_evol lib _ rfl rfl rfl rfl rfl hev
        · rename_i canvas tiles2 hcomp
          have hev := compositeLoop_evol env _ _ _ _ _ hcomp
          split at hgen
          · simp only [Option.some.injEq, Prod.mk.injEq] at hgen
            rw [← hgen.2]
            exact frame_of_tiles_evol lib _ rfl rfl rfl rfl rfl hev
          · simp only [Option.some.injEq, Prod.mk.injEq] at hgen
            rw [← hgen.2]
            exact frame_of_tiles_evol lib _ rfl rfl rfl rfl rfl hev

/-- Environment for the C10 witness: a `1 × 1` target, one candidate. -/
def envW : Env ℚ :=
  { loadImage := fun _ => .ok (Image.mk 1 1 [(0, 0, 0)]),
    loadResized := fun _ _ => .ok (Image.mk 1 1 [(0, 0, 0)]),
    resizeExact := fun img _ _ => img,
    overlay := fun canvas _ _ _ => canvas,
    nearestN := fun _ _ _ => [(0, 0)],
    encodePng := fun _ => .ok [],
    base64Encode := fun _ => "" }

/-- One-tile library for the C10 witness (cache empty). -/
def libW : TileLibrary ℚ :=
  { tiles := [Tile.new "t.png" (0, 0, 0) 1],
    color_points := [(0, 0, 0)],
    src_dir := "tiles", tile_size := 1, sigma_divisor := 4,
    mask := GaussianMask.mk [1] 1 }

/-- The same library after the generation run: the cache is populated. -/
def libW2 : TileLibrary ℚ :=
  { tiles := [{ path := "t.png", color := (0, 0, 0),
                image_cache := some (Image.mk 1 1 [(0, 0, 0)]), tile_size := 1 }],
    color_points := [(0, 0, 0)],
    src_dir := "tiles", tile_size := 1, sigma_divisor := 4,
    mask := GaussianMask.mk [1] 1 }

/-- Witness for C10: a complete successful `generate_mosaic` run on `libW`
yields `libW2`, and the frame conditions hold between them. -/
theorem C10_generate_mosaic_frame_witness :
    libW2.src_dir = libW.src_dir ∧ libW2.tile_size = libW.tile_size ∧
    libW2.sigma_divisor = libW.sigma_divisor ∧ libW2.mask = libW.mask ∧
    libW2.color_points = libW.color_points ∧
    libW2.tiles.length = libW.tiles.length ∧
    (∀ i, ∀ hi : i < libW.tiles.length, ∀ hi2 : i < libW2.tiles.length,
      (libW2.tiles.get ⟨i, hi2⟩).path = (libW.tiles.get ⟨i, hi⟩).path ∧
      (libW2.tiles.get ⟨i, hi2⟩).color = (libW.tiles.get ⟨i, hi⟩).color ∧
      (libW2.tiles.get ⟨i, hi2⟩).tile_size = (libW.tiles.get ⟨i, hi⟩).tile_size ∧
      ((libW2.tiles.get ⟨i, hi2⟩).image_cache = (libW.tiles.get ⟨i, hi⟩).image_cache ∨
        ((libW.tiles.get ⟨i, hi⟩).image_cache = none ∧
          ∃ img, (libW2.tiles.get ⟨i, hi2⟩).image_cache = some img))) :=
  C10_generate_mosaic_frame envW libW "target.png" (MosaicConfig.mk 1)
    (.ok ("data:image/png;base64," ++ "")) libW2 rfl

end MosaicGen
